import Mathlib

/-!
Shallow embedding of the core execution logic of `waterRPA_GUI.py`:
the cancellable sleep primitive (`_cancellable_sleep`), macOS Retina
coordinate normalization (`_normalize_xy_for_macos_retina`), the
image-locate wrapper (`_locate_center_on_screen`), the click/hover retry
loops (`mouseClick`, `mouseMove`), and the `RPAEngine.run_tasks` run loop.

Wall-clock time is modelled with `ℚ` (seconds).  External capabilities —
pyautogui screen searches, the frontmost-application probe, the externally
mutated stop flag — are modelled as explicit oracle parameters.  Unbounded
`while True` loops are modelled with an explicit fuel argument returning
`Option` (`none` = fuel exhausted); termination theorems then exhibit a
sufficient fuel.
-/

namespace WaterRPA

/-- A matched image center in capture-pixel space (floats modelled as `ℚ`). -/
structure Point where
  x : ℚ
  y : ℚ
deriving DecidableEq

/-- Python's built-in one-argument `round` (banker's rounding, half to even),
as used by `int(round(nx))` in `mouseClick` and `mouseMove`. -/
def pyRound (q : ℚ) : ℤ :=
  if q - ⌊q⌋ < 1/2 then ⌊q⌋
  else if 1/2 < q - ⌊q⌋ then ⌊q⌋ + 1
  else if ⌊q⌋ % 2 = 0 then ⌊q⌋ else ⌊q⌋ + 1

/-- Python truthiness of an optional float (`None` and `0.0` are falsy), as in
the `if not scale_x or not scale_y` guard of `_normalize_xy_for_macos_retina`. -/
def truthyQ : Option ℚ → Bool
  | none => false
  | some v => v != 0

/-- Python truthiness of an optional string (`None` and the empty string are
falsy), as in the `if pre_app and post_app` guard of `mouseClick`. -/
def truthyS : Option String → Bool
  | none => false
  | some s => s != ""

/-- `_normalize_xy_for_macos_retina(x, y, scale_x=…, scale_y=…)`
(waterRPA_GUI.py lines 77-95).  `isMac` models `_is_macos()`. -/
def normalizeXY (isMac : Bool) (x y : ℚ) (scale_x scale_y : Option ℚ) : ℚ × ℚ :=
  if !isMac then (x, y)
  else if !(truthyQ scale_x) || !(truthyQ scale_y) then (x, y)
  else
    let a := scale_x.getD 0
    let b := scale_y.getD 0
    if |a - 1| < 1/100 ∧ |b - 1| < 1/100 then (x, y)
    else (x / a, y / b)

/-- The normalization contract exactly as claim C5 words it: identity when not
on the affected platform, or when either scale component is absent, or when
both are within 0.01 of 1.0; in every other case exactly
`(x / scale.x, y / scale.y)`. -/
def normalizeClaimC5 (isMac : Bool) (x y : ℚ) (scale_x scale_y : Option ℚ) : ℚ × ℚ :=
  match scale_x, scale_y with
  | some a, some b =>
    if !isMac then (x, y)
    else if |a - 1| < 1/100 ∧ |b - 1| < 1/100 then (x, y)
    else (x / a, y / b)
  | _, _ => (x, y)

/-- Claim C5 amended: a scale component that is absent **or equal to 0**
(Python float falsiness) also yields the identity; otherwise exact division. -/
def normalizeAmendedC5 (isMac : Bool) (x y : ℚ) (scale_x scale_y : Option ℚ) : ℚ × ℚ :=
  match scale_x, scale_y with
  | some a, some b =>
    if !isMac then (x, y)
    else if a = 0 ∨ b = 0 then (x, y)
    else if |a - 1| < 1/100 ∧ |b - 1| < 1/100 then (x, y)
    else (x / a, y / b)
  | _, _ => (x, y)

/-- Whether an image reference contains a filesystem path separator
(`any(sep in img for sep in ("/", "\\"))`, line 114). -/
def hasSep (img : String) : Bool :=
  img.data.contains '/' || img.data.contains '\\'

/-- Lower-cased characters of an exception message (`str(e).lower()`). -/
def lowerChars (msg : String) : List Char :=
  msg.data.map Char.toLower

/-- Whether the first character list starts the second. -/
def startsChars : List Char → List Char → Bool
  | [], _ => true
  | _ :: _, [] => false
  | a :: as, b :: bs => a == b && startsChars as bs

/-- Whether the first character list occurs contiguously in the second
(Python's `needle in hay` on strings). -/
def containsChars (needle : List Char) : List Char → Bool
  | [] => startsChars needle []
  | b :: bs => startsChars needle (b :: bs) || containsChars needle bs

/-- `"confidence" in msg.lower() or "opencv" in msg.lower()` (line 122). -/
def mentionsConfidenceOrOpenCV (msg : String) : Bool :=
  containsChars "confidence".data (lowerChars msg) ||
    containsChars "opencv".data (lowerChars msg)

/-- Outcome of one raw `pyautogui.locateCenterOnScreen` call: either a
returned optional point, or an exception carrying its message text and
whether it is an `ImageNotFoundException`. -/
inductive PyLocateRes
  | ret (p : Option Point)
  | exc (msg : String) (isImgNotFound : Bool)
deriving DecidableEq

/-- Result of `_locate_center_on_screen` (lines 98-129): a found point, a
`None` return, an escaping `ImageNotFoundException`, a raised `StepFailed`,
or some other escaping exception. -/
inductive LocateResult
  | found (p : Point)
  | noneRes
  | raisedNotFound
  | raisedStepFailed (msg : String)
  | raisedOther (msg : String)
deriving DecidableEq

/-- `_locate_center_on_screen(img, confidence=0.9, on_warn=…)` (lines 98-129),
with the confidence-based search and the degraded (no-confidence) retry
supplied as oracles `withConf` and `noConf`, and the filesystem existence
check as `fileExists`.  The one-time warning callback has no bearing on the
returned value and is omitted from the model. -/
def locateCenterOnScreenM (img : String) (fileExists : Bool)
    (withConf noConf : PyLocateRes) : LocateResult :=
  if img == "" then .noneRes
  else if hasSep img && !fileExists then
    .raisedStepFailed ("图片文件不存在: " ++ img)
  else
    match withConf with
    | .ret (some p) => .found p
    | .ret none => .noneRes
    | .exc msg isINF =>
      if mentionsConfidenceOrOpenCV msg then
        match noConf with
        | .ret (some p) => .found p
        | .ret none => .noneRes
        | .exc _ true => .noneRes
        | .exc m false => .raisedOther m
      else if isINF then .raisedNotFound else .raisedOther msg

/-!  ## Claim C5 — coordinate normalization  -/

/-- C5 counterexample: on macOS with scale factors `(0, 2)` — both present,
not both within 0.01 of 1.0 — the code's falsiness guard (`not scale_x`)
returns the point unchanged, while the claim's contract demands
`(x / scale.x, y / scale.y)`; at `(x, y) = (4, 4)` the two disagree
(`(4, 4)` versus `(0, 2)` with `4 / 0 = 0` in `ℚ`; in Python the claimed
division would raise `ZeroDivisionError`, which the code never does). -/
theorem normalizeXY_claimC5_counterexample :
    normalizeXY true 4 4 (some 0) (some 2) = (4, 4) ∧
    normalizeClaimC5 true 4 4 (some 0) (some 2) = (0, 2) ∧
    normalizeXY true 4 4 (some 0) (some 2) ≠ normalizeClaimC5 true 4 4 (some 0) (some 2) := by
  have h1 : normalizeXY true 4 4 (some 0) (some 2) = (4, 4) := by
    norm_num [normalizeXY, truthyQ]
  have h2 : normalizeClaimC5 true 4 4 (some 0) (some 2) = (0, 2) := by
    rw [normalizeClaimC5]
    norm_num
  refine ⟨h1, h2, ?_⟩
  rw [h1, h2]
  intro h
  have h4 := congrArg Prod.fst h
  norm_num at h4

/-- C5 amended: `normalize` is the identity whenever the platform is not the
one subject to the capture/screen mismatch, or `scale.x`/`scale.y` are absent
**or zero** (Python treats a 0.0 scale as falsy and skips normalization), or
both are within 0.01 of 1.0; otherwise it returns exactly
`(x / scale.x, y / scale.y)`.  The function is pure and deterministic (it is
a total Lean function of its arguments). -/
theorem normalizeXY_matches_amendedC5 (isMac : Bool) (x y : ℚ)
    (scale_x scale_y : Option ℚ) :
    normalizeXY isMac x y scale_x scale_y = normalizeAmendedC5 isMac x y scale_x scale_y := by
  cases scale_x with
  | none => cases isMac <;> simp [normalizeXY, normalizeAmendedC5, truthyQ]
  | some a =>
    cases scale_y with
    | none => cases isMac <;> simp [normalizeXY, normalizeAmendedC5, truthyQ]
    | some b =>
      cases isMac with
      | false => simp [normalizeXY, normalizeAmendedC5]
      | true =>
        simp only [normalizeXY, normalizeAmendedC5, truthyQ, Bool.not_true,
          Bool.false_eq_true, if_false, Option.getD_some]
        by_cases ha : a = 0
        · subst ha; simp
        · by_cases hb : b = 0
          · subst hb; simp [ha]
          · simp [ha, hb, bne]

/-!  ## Claim C7 — missing image file fails fast  -/

/-- C7: for every image reference that contains a path separator and does not
exist on disk, `_locate_center_on_screen` raises
`StepFailed("图片文件不存在: …")` before any search is attempted (the result
does not depend on the search oracles), and this outcome is distinct from the
miss outcomes of an unsuccessful search (a `None` return or an
`ImageNotFoundException`). -/
theorem locate_missing_file_failsFast (img : String) (wc nc wc' nc' : PyLocateRes)
    (hsep : hasSep img = true) :
    locateCenterOnScreenM img false wc nc = .raisedStepFailed ("图片文件不存在: " ++ img) ∧
    locateCenterOnScreenM img false wc nc = locateCenterOnScreenM img false wc' nc' ∧
    locateCenterOnScreenM img false wc nc ≠ .noneRes ∧
    locateCenterOnScreenM img false wc nc ≠ .raisedNotFound := by
  have hne : (img == "") = false := by
    cases h : img == "" with
    | false => rfl
    | true =>
      have : img = "" := by
        have := of_decide_eq_true h
        exact this
      rw [this] at hsep
      exact absurd hsep (by decide)
  refine ⟨?_, ?_, ?_, ?_⟩ <;>
    simp [locateCenterOnScreenM, hne, hsep]

/-- Witness for C7 at the concrete input `"a/b.png"` (nonexistent file), with
arbitrary concrete search oracles. -/
theorem locate_missing_file_failsFast_witness :
    locateCenterOnScreenM "a/b.png" false (.ret none) (.ret none) =
      .raisedStepFailed ("图片文件不存在: " ++ "a/b.png") ∧
    locateCenterOnScreenM "a/b.png" false (.ret none) (.ret none) ≠ .noneRes := by
  have h := locate_missing_file_failsFast "a/b.png" (.ret none) (.ret none)
    (.exc "x" true) (.ret none) (by decide)
  exact ⟨h.1, h.2.2.1⟩

/-!  ## Step executors: events, match actions, retry loops  -/

/-- Side-effecting calls issued by the image-search executors, in order. -/
inductive MouseEvent
  | click (x y : ℤ) (clicks : Nat) (interval duration : ℚ) (button : String)
  | moveTo (x y : ℤ) (duration : ℚ)
  | readFrontmost
  | locateScreen
  | sleepFor (d : ℚ)
deriving DecidableEq

/-- Recognizer for click events. -/
def isClickEv : MouseEvent → Bool
  | .click _ _ _ _ _ _ => true
  | _ => false

/-- Recognizer for sleep events. -/
def isSleepEv : MouseEvent → Bool
  | .sleepFor _ => true
  | _ => false

/-- Recognizer for image-locate events. -/
def isLocateEv : MouseEvent → Bool
  | .locateScreen => true
  | _ => false

/-- The on-match block of `mouseClick` (lines 187-208, identically 230-249):
read the frontmost application, click once at the rounded normalized point
with `interval=0.2, duration=0.2`, re-read the frontmost application, and —
when both reads are truthy and differ — immediately issue exactly one
compensation click with identical parameters.  No sleep and no re-locate
occur in this block. -/
def clickMatchAction (clickTimes : Nat) (button : String) (nx ny : ℚ)
    (pre post : Option String) : List MouseEvent :=
  [.readFrontmost,
   .click (pyRound nx) (pyRound ny) clickTimes (1/5) (1/5) button,
   .readFrontmost] ++
  (if truthyS pre && truthyS post && pre != post then
    [.click (pyRound nx) (pyRound ny) clickTimes (1/5) (1/5) button]
   else [])

/-- The on-match block of `mouseMove` (lines 293-301): one `moveTo` at the
rounded normalized point, never any click. -/
def hoverMatchAction (nx ny : ℚ) : List MouseEvent :=
  [.moveTo (pyRound nx) (pyRound ny) (1/5)]

/-- What the executors' `try … except pyautogui.ImageNotFoundException:
location = None` wrapper makes of a locate result. -/
inductive AttemptView
  | hit (p : Point)
  | miss
  | invalidStop (msg : String)
  | fatalErr (msg : String)
deriving DecidableEq

/-- Apply the executors' exception handling to a `_locate_center_on_screen`
result: `ImageNotFoundException` is caught and treated as a miss, a raised
`StepFailed` propagates (failing the step), anything else is fatal. -/
def attemptView : LocateResult → AttemptView
  | .found p => .hit p
  | .noneRes => .miss
  | .raisedNotFound => .miss
  | .raisedStepFailed m => .invalidStop m
  | .raisedOther m => .fatalErr m

/-- Per-attempt oracles for one image-search step: the wall clock read at the
n-th timeout check, the value of the `should_stop()` poll before the n-th
attempt, and the locate result of the n-th attempt.  Every iteration that
misses ends in a 0.1 s cancellable sleep, so consecutive clock reads are at
least 0.1 s apart; this is a hypothesis of the timing theorems, not baked
into the definitions. -/
structure SearchEnv where
  clock : Nat → ℚ
  stop : Nat → Bool
  locate : Nat → LocateResult

/-- Terminal outcome of an image-search step. -/
inductive SearchOutcome
  | acted (events : List MouseEvent)
  | cancelled
  | timedOut
  | invalid (msg : String)
  | fatalExc (msg : String)
  | noMatch
deriving DecidableEq

/-- The `reTry == -1` loop of `mouseClick` (lines 169-210) and `mouseMove`
(lines 282-303), with the on-match action abstracted as `act`: check the stop
flag, check `timeout and (now - start > timeout)`, locate, act on a hit,
otherwise sleep 0.1 s and repeat.  `fuel` bounds the number of modelled
iterations of the source's unbounded `while True`. -/
def searchUnbounded (env : SearchEnv) (timeout start : ℚ)
    (act : Nat → Point → List MouseEvent) : Nat → Nat → Option SearchOutcome
  | 0, _ => none
  | fuel + 1, n =>
    if env.stop n then some .cancelled
    else if timeout ≠ 0 ∧ timeout < env.clock n - start then some .timedOut
    else
      match attemptView (env.locate n) with
      | .hit p => some (.acted (act n p))
      | .invalidStop m => some (.invalid m)
      | .fatalErr m => some (.fatalExc m)
      | .miss => searchUnbounded env timeout start act fuel (n + 1)

/-- The `reTry >= 1` loop (`for attempt in range(reTry)`, lines 213-254 and
305-328); the first numeric argument is the number of attempts remaining, and
exhausting it raises `StepFailed("未找到匹配图片: …")`. -/
def searchFinite (env : SearchEnv) (timeout start : ℚ)
    (act : Nat → Point → List MouseEvent) : Nat → Nat → SearchOutcome
  | 0, _ => .noMatch
  | r + 1, n =>
    if env.stop n then .cancelled
    else if timeout ≠ 0 ∧ timeout < env.clock n - start then .timedOut
    else
      match attemptView (env.locate n) with
      | .hit p => .acted (act n p)
      | .invalidStop m => .invalid m
      | .fatalErr m => .fatalExc m
      | .miss => searchFinite env timeout start act r (n + 1)

/-- The `reTry` coercion at the top of `mouseClick` and `mouseMove`
(lines 155-162, 270-276): `none` models a value `int()` cannot convert
(coerced to 1), and `0` and every value below `-1` are coerced to 1. -/
def normalizeRetry : Option Int → Int
  | none => 1
  | some v => if v = 0 ∨ v < -1 then 1 else v

/-- `mouseClick(clickTimes, lOrR, img, reTry, timeout=…)` (lines 132-254):
normalize the retry policy, then run the unbounded loop (`reTry == -1`) or
the finite-attempt loop, clicking (with focus-change compensation) at the
normalized match point.  `pre`/`post` are the frontmost-application reads
around the click of attempt `n`. -/
def mouseClick (env : SearchEnv) (isMac : Bool) (clickTimes : Nat)
    (button : String) (reTry : Option Int) (timeout start : ℚ)
    (scale_x scale_y : Option ℚ) (pre post : Nat → Option String)
    (fuel : Nat) : Option SearchOutcome :=
  let act := fun n (p : Point) =>
    let q := normalizeXY isMac p.x p.y scale_x scale_y
    clickMatchAction clickTimes button q.1 q.2 (pre n) (post n)
  if normalizeRetry reTry = -1 then
    searchUnbounded env timeout start act fuel 0
  else
    some (searchFinite env timeout start act (normalizeRetry reTry).toNat 0)

/-- `mouseMove(img, reTry, timeout=…)` (lines 257-328): the same two loops
with the hover action on match. -/
def mouseMove (env : SearchEnv) (isMac : Bool) (reTry : Option Int)
    (timeout start : ℚ) (scale_x scale_y : Option ℚ) (fuel : Nat) :
    Option SearchOutcome :=
  let act := fun _ (p : Point) =>
    let q := normalizeXY isMac p.x p.y scale_x scale_y
    hoverMatchAction q.1 q.2
  if normalizeRetry reTry = -1 then
    searchUnbounded env timeout start act fuel 0
  else
    some (searchFinite env timeout start act (normalizeRetry reTry).toNat 0)

/-!  ## Claim C6 — focus-change compensation click  -/

/-- C6: around a successful click the executor reads the frontmost
application before and after (the first three events are read/click/read);
exactly when both identities are truthy and differ it issues exactly one
additional click — the click events are `replicate 2` (otherwise
`replicate 1`) of the identical click at the same rounded normalized point,
so a third click is impossible; the block contains no image-locate event and
no sleep event (the compensation click is issued with zero delay after the
frontmost re-read); and the hover action contains no click at all. -/
theorem clickMatchAction_compensation (clickTimes : Nat) (button : String)
    (nx ny : ℚ) (pre post : Option String) :
    (clickMatchAction clickTimes button nx ny pre post).take 3 =
      [.readFrontmost,
       .click (pyRound nx) (pyRound ny) clickTimes (1/5) (1/5) button,
       .readFrontmost] ∧
    (clickMatchAction clickTimes button nx ny pre post).filter isClickEv =
      List.replicate (if truthyS pre && truthyS post && pre != post then 2 else 1)
        (.click (pyRound nx) (pyRound ny) clickTimes (1/5) (1/5) button) ∧
    (clickMatchAction clickTimes button nx ny pre post).filter isSleepEv = [] ∧
    (clickMatchAction clickTimes button nx ny pre post).filter isLocateEv = [] ∧
    (hoverMatchAction nx ny).filter isClickEv = [] := by
  cases h : truthyS pre && truthyS post && pre != post <;>
    simp [clickMatchAction, hoverMatchAction, h, isClickEv, isSleepEv, isLocateEv,
      List.filter, List.replicate]

/-!  ## Claim C9 — retry policy coercion is total  -/

/-- C9: the retry coercion is total: an unconvertible value (`none`), `0`,
and every value below `-1` become `1`; the result is always `-1`, `1`, or
greater than `1`, so only the single-attempt, N-attempt and unbounded modes
exist; and whenever the result is not `-1` the finite loop receives at least
one attempt (`toNat ≥ 1`). -/
theorem normalizeRetry_total_modes (r : Option Int) :
    (normalizeRetry r = -1 ∨ normalizeRetry r = 1 ∨ 1 < normalizeRetry r) ∧
    normalizeRetry none = 1 ∧
    (∀ v : Int, v = 0 ∨ v < -1 → normalizeRetry (some v) = 1) ∧
    (normalizeRetry r ≠ -1 → 1 ≤ (normalizeRetry r).toNat) := by
  refine ⟨?_, rfl, ?_, ?_⟩
  · cases r with
    | none => exact Or.inr (Or.inl rfl)
    | some v =>
      rw [normalizeRetry]
      by_cases h : v = 0 ∨ v < -1
      · rw [if_pos h]; exact Or.inr (Or.inl rfl)
      · rw [if_neg h]; omega
  · intro v hv
    rw [normalizeRetry, if_pos hv]
  · intro hne
    cases r with
    | none => simp [normalizeRetry]
    | some v =>
      rw [normalizeRetry] at hne ⊢
      by_cases h : v = 0 ∨ v < -1
      · rw [if_pos h]; rfl
      · rw [if_neg h] at hne ⊢; omega

/-- Witness for C9: a retry value of `-5` (below `-1`) is coerced to a single
attempt, and a retry value of `3` gives the finite loop at least one attempt. -/
theorem normalizeRetry_total_modes_witness :
    normalizeRetry (some (-5)) = 1 ∧ 1 ≤ (normalizeRetry (some 3)).toNat := by
  constructor
  · exact (normalizeRetry_total_modes (some (-5))).2.2.1 (-5) (Or.inr (by decide))
  · exact (normalizeRetry_total_modes (some 3)).2.2.2 (by decide)

/-!  ## Claim C1 — the timeout cap bounds every retry mode  -/

/-- If the clock has already advanced far enough relative to the remaining
fuel, the unbounded loop on an always-missing locate ends in a timeout. -/
theorem searchUnbounded_timeout_le (env : SearchEnv) (T start : ℚ)
    (act : Nat → Point → List MouseEvent)
    (hT : 0 < T)
    (hclock : ∀ n, env.clock n + 1/10 ≤ env.clock (n + 1))
    (hstop : ∀ n, env.stop n = false)
    (hloc : ∀ n, env.locate n = .noneRes) :
    ∀ (fuel n : Nat), start + T < env.clock n + (fuel : ℚ) * (1/10) →
      searchUnbounded env T start act (fuel + 1) n = some .timedOut := by
  intro fuel
  induction fuel with
  | zero =>
    intro n h
    have ht : T < env.clock n - start := by push_cast at h; linarith
    simp only [searchUnbounded, hstop n, Bool.false_eq_true, if_false]
    rw [if_pos ⟨ne_of_gt hT, ht⟩]
  | succ f ih =>
    intro n h
    by_cases ht : T < env.clock n - start
    · simp only [searchUnbounded, hstop n, Bool.false_eq_true, if_false]
      rw [if_pos ⟨ne_of_gt hT, ht⟩]
    · simp only [searchUnbounded, hstop n, Bool.false_eq_true, if_false]
      rw [if_neg (fun hc => ht hc.2), hloc n]
      show searchUnbounded env T start act (f + 1) (n + 1) = some .timedOut
      apply ih
      have hc := hclock n
      push_cast at h ⊢
      linarith

/-- On an always-missing locate with no stop request, the unbounded loop can
only run out of modelled fuel or time out: no other outcome is reachable. -/
theorem searchUnbounded_only_timeout (env : SearchEnv) (T start : ℚ)
    (act : Nat → Point → List MouseEvent)
    (hstop : ∀ n, env.stop n = false)
    (hloc : ∀ n, env.locate n = .noneRes) :
    ∀ fuel n, searchUnbounded env T start act fuel n = none ∨
      searchUnbounded env T start act fuel n = some .timedOut := by
  intro fuel
  induction fuel with
  | zero => intro n; exact Or.inl rfl
  | succ f ih =>
    intro n
    simp only [searchUnbounded, hstop n, Bool.false_eq_true, if_false]
    by_cases ht : T ≠ 0 ∧ T < env.clock n - start
    · rw [if_pos ht]; exact Or.inr rfl
    · rw [if_neg ht, hloc n]
      exact ih (n + 1)

/-- On an always-missing locate that never reaches the cap and never sees a
stop, the finite-attempt loop exhausts its budget with "no match". -/
theorem searchFinite_noMatch (env : SearchEnv) (T start : ℚ)
    (act : Nat → Point → List MouseEvent)
    (hstop : ∀ n, env.stop n = false)
    (hnt : ∀ n, ¬(T < env.clock n - start))
    (hloc : ∀ n, env.locate n = .noneRes) :
    ∀ r n, searchFinite env T start act r n = .noMatch := by
  intro r
  induction r with
  | zero => intro n; rfl
  | succ f ih =>
    intro n
    simp only [searchFinite, hstop n, Bool.false_eq_true, if_false]
    rw [if_neg (fun hc => hnt n hc.2), hloc n]
    exact ih (n + 1)

/-- C1: with `retryPolicy = -1`, a positive timeout cap `T`, a locate that
never matches, no stop request, and a clock that advances by at least the
0.1 s inter-attempt sleep each iteration, the attempt loop of `mouseClick`
terminates: some finite iteration bound (fuel) yields the timeout
`StepFailed`, and no amount of fuel can yield any outcome other than the
timeout; the same holds for `mouseMove` (hover); and in the single-attempt
and N-attempt modes the identical cap check fires at any attempt whose
elapsed time exceeds `T`, regardless of remaining attempts. -/
theorem imageSearch_retryNeg1_timesOut (env : SearchEnv) (isMac : Bool)
    (clickTimes : Nat) (button : String) (T start : ℚ)
    (scale_x scale_y : Option ℚ) (pre post : Nat → Option String)
    (hT : 0 < T) (hstart : start ≤ env.clock 0)
    (hclock : ∀ n, env.clock n + 1/10 ≤ env.clock (n + 1))
    (hstop : ∀ n, env.stop n = false)
    (hloc : ∀ n, env.locate n = .noneRes) :
    (∃ fuel, mouseClick env isMac clickTimes button (some (-1)) T start
        scale_x scale_y pre post fuel = some .timedOut) ∧
    (∀ fuel, mouseClick env isMac clickTimes button (some (-1)) T start
        scale_x scale_y pre post fuel = none ∨
      mouseClick env isMac clickTimes button (some (-1)) T start
        scale_x scale_y pre post fuel = some .timedOut) ∧
    (∃ fuel, mouseMove env isMac (some (-1)) T start scale_x scale_y fuel =
        some .timedOut) ∧
    (∀ (act : Nat → Point → List MouseEvent) (r n : Nat),
      T < env.clock n - start →
        searchFinite env T start act (r + 1) n = .timedOut) := by
  have harch : ∀ (act : Nat → Point → List MouseEvent),
      ∃ fuel, searchUnbounded env T start act fuel 0 = some .timedOut := by
    intro act
    obtain ⟨k, hk⟩ := exists_nat_gt (10 * T)
    refine ⟨k + 1, searchUnbounded_timeout_le env T start act hT hclock hstop hloc k 0 ?_⟩
    have h10 : (10 : ℚ) * T * (1/10) < (k : ℚ) * (1/10) :=
      mul_lt_mul_of_pos_right hk (by norm_num)
    linarith
  have hdefC : ∀ fuel, mouseClick env isMac clickTimes button (some (-1)) T start
      scale_x scale_y pre post fuel =
      searchUnbounded env T start
        (fun n p =>
          clickMatchAction clickTimes button
            (normalizeXY isMac p.x p.y scale_x scale_y).1
            (normalizeXY isMac p.x p.y scale_x scale_y).2 (pre n) (post n))
        fuel 0 := fun _ => rfl
  have hdefM : ∀ fuel, mouseMove env isMac (some (-1)) T start scale_x scale_y fuel =
      searchUnbounded env T start
        (fun _ p =>
          hoverMatchAction (normalizeXY isMac p.x p.y scale_x scale_y).1
            (normalizeXY isMac p.x p.y scale_x scale_y).2)
        fuel 0 := fun _ => rfl
  refine ⟨?_, ?_, ?_, ?_⟩
  · obtain ⟨fuel, hf⟩ := harch _
    exact ⟨fuel, (hdefC fuel).trans hf⟩
  · intro fuel
    rw [hdefC fuel]
    exact searchUnbounded_only_timeout env T start _ hstop hloc fuel 0
  · obtain ⟨fuel, hf⟩ := harch _
    exact ⟨fuel, (hdefM fuel).trans hf⟩
  · intro act r n hlt
    simp only [searchFinite, hstop n, Bool.false_eq_true, if_false]
    rw [if_pos ⟨ne_of_gt hT, hlt⟩]

/-- Witness for C1: a concrete clock advancing exactly 0.1 s per attempt, a
0.5 s cap, a never-matching locate and no stop request — the unbounded click
loop reaches the timeout failure at some fuel. -/
theorem imageSearch_retryNeg1_timesOut_witness :
    ∃ fuel, mouseClick ⟨fun n => (n : ℚ) * (1/10), fun _ => false, fun _ => .noneRes⟩
        false 1 "left" (some (-1)) (1/2) 0 none none (fun _ => none) (fun _ => none)
        fuel = some .timedOut := by
  exact (imageSearch_retryNeg1_timesOut
    ⟨fun n => (n : ℚ) * (1/10), fun _ => false, fun _ => .noneRes⟩
    false 1 "left" (1/2) 0 none none (fun _ => none) (fun _ => none)
    (by norm_num) (by norm_num)
    (fun n => le_of_eq (by push_cast; ring)) (fun _ => rfl) (fun _ => rfl)).1

/-!  ## Claim C10 — empty image reference is a miss, not invalid input  -/

/-- C10: an empty image reference makes `_locate_center_on_screen` return
`None` — a miss — whatever the filesystem and search oracles say (no search
is consulted), so a click step with that reference and retry budget `k + 1`
exhausts its attempts and fails with the "no match" `StepFailed`
(`未找到匹配图片`), never with the invalid-input failure. -/
theorem mouseClick_emptyImage_noMatch (env : SearchEnv) (isMac : Bool)
    (clickTimes k : Nat) (button : String) (T start : ℚ)
    (scale_x scale_y : Option ℚ) (pre post : Nat → Option String)
    (fe : Nat → Bool) (wc nc : Nat → PyLocateRes) (fuel : Nat)
    (hloc : ∀ n, env.locate n = locateCenterOnScreenM "" (fe n) (wc n) (nc n))
    (hstop : ∀ n, env.stop n = false)
    (hnt : ∀ n, ¬(T < env.clock n - start)) :
    (∀ n, env.locate n = .noneRes) ∧
    mouseClick env isMac clickTimes button (some ((k : Int) + 1)) T start
      scale_x scale_y pre post fuel = some .noMatch ∧
    (∀ m, mouseClick env isMac clickTimes button (some ((k : Int) + 1)) T start
      scale_x scale_y pre post fuel ≠ some (.invalid m)) := by
  have hmiss : ∀ n, env.locate n = .noneRes := by
    intro n; rw [hloc n]; rfl
  have hr : normalizeRetry (some ((k : Int) + 1)) = (k : Int) + 1 := by
    rw [normalizeRetry, if_neg]
    omega
  have h2 : mouseClick env isMac clickTimes button (some ((k : Int) + 1)) T start
      scale_x scale_y pre post fuel = some .noMatch := by
    simp only [mouseClick, hr]
    rw [if_neg (by omega : ¬((k : Int) + 1 = -1))]
    rw [(by omega : ((k : Int) + 1).toNat = k + 1)]
    exact congrArg some (searchFinite_noMatch env T start _ hstop hnt hmiss (k + 1) 0)
  refine ⟨hmiss, h2, ?_⟩
  intro m
  rw [h2]
  simp

/-- Witness for C10: the empty image reference with retry budget 1, a stopped
clock and a 60 s cap ends in the "no match" failure. -/
theorem mouseClick_emptyImage_noMatch_witness :
    mouseClick ⟨fun _ => 0, fun _ => false,
        fun _ => locateCenterOnScreenM "" true (.ret none) (.ret none)⟩
      false 1 "left" (some (((0 : Nat) : Int) + 1)) 60 0 none none
      (fun _ => none) (fun _ => none) 0 = some .noMatch := by
  exact (mouseClick_emptyImage_noMatch
    ⟨fun _ => 0, fun _ => false,
      fun _ => locateCenterOnScreenM "" true (.ret none) (.ret none)⟩
    false 1 0 "left" 60 0 none none (fun _ => none) (fun _ => none)
    (fun _ => true) (fun _ => .ret none) (fun _ => .ret none) 0
    (fun _ => rfl) (fun _ => rfl) (fun _ => by norm_num)).2.1

/-!  ## The cancellable-sleep primitive  -/

/-- Result of `_cancellable_sleep`: a normal return or a raised
`TaskStopped`, tagged with the wall-clock time at which it happened. -/
inductive SleepResult
  | done (t : ℚ)
  | cancelled (t : ℚ)
deriving DecidableEq

/-- `should_stop and should_stop()` (line 67) for an optional callback. -/
def checkStop : Option (ℚ → Bool) → ℚ → Bool
  | none, _ => false
  | some f, now => f now

/-- The polling loop of `_cancellable_sleep` (lines 66-74): check the stop
flag, return normally once `end_time - now ≤ 0`, otherwise sleep
`min(tick, remaining)` and repeat.  Modelled sleeps advance the clock by
exactly the slept amount; `fuel` bounds the modelled iterations. -/
def sleepLoop (endTime tick : ℚ) (should_stop : Option (ℚ → Bool)) :
    Nat → ℚ → Option SleepResult
  | 0, _ => none
  | fuel + 1, now =>
    if checkStop should_stop now then some (.cancelled now)
    else if endTime - now ≤ 0 then some (.done now)
    else sleepLoop endTime tick should_stop fuel (now + min tick (endTime - now))

/-- `_cancellable_sleep(seconds, should_stop, tick)` (lines 54-74), started
at wall-clock time `now`: non-positive durations return at once, a
non-positive tick falls back to 0.1 s, then the polling loop runs. -/
def cancellableSleep (seconds : ℚ) (should_stop : Option (ℚ → Bool))
    (tick : ℚ) (now : ℚ) (fuel : Nat) : Option SleepResult :=
  if seconds ≤ 0 then some (.done now)
  else
    let tick' := if tick ≤ 0 then 1/10 else tick
    sleepLoop (now + seconds) tick' should_stop fuel now

/-!  ## Claim C2 — cancellation latency and exact deadline landing  -/

/-- Polls advance by at most one tick, so once the stop predicate becomes
true at `t` (before the deadline) the loop raises `TaskStopped` at a poll
time in `[t, t + tick)`. -/
theorem sleepLoop_cancelled_invariant (endTime tick t : ℚ) (sf : ℚ → Bool)
    (hend : t < endTime)
    (hf : ∀ τ, sf τ = decide (t ≤ τ)) :
    ∀ (fuel : Nat) (now : ℚ), now < t + tick → t < now + (fuel : ℚ) * tick →
      ∃ τ, t ≤ τ ∧ τ < t + tick ∧
        sleepLoop endTime tick (some sf) (fuel + 1) now = some (.cancelled τ) := by
  intro fuel
  induction fuel with
  | zero =>
    intro now h1 h2
    have ht : t ≤ now := by push_cast at h2; linarith
    have hsf : checkStop (some sf) now = true := by
      show sf now = true
      rw [hf now]; exact decide_eq_true ht
    exact ⟨now, ht, h1, by simp only [sleepLoop]; rw [if_pos hsf]⟩
  | succ n ih =>
    intro now h1 h2
    by_cases hc : t ≤ now
    · have hsf : checkStop (some sf) now = true := by
        show sf now = true
        rw [hf now]; exact decide_eq_true hc
      exact ⟨now, hc, h1, by simp only [sleepLoop]; rw [if_pos hsf]⟩
    · push_neg at hc
      have hsf : checkStop (some sf) now = false := by
        show sf now = false
        rw [hf now]; exact decide_eq_false (not_le.mpr hc)
      have hrem : ¬(endTime - now ≤ 0) := by linarith
      have hstep : sleepLoop endTime tick (some sf) (n + 1 + 1) now =
          sleepLoop endTime tick (some sf) (n + 1) (now + min tick (endTime - now)) := by
        simp only [sleepLoop]
        rw [if_neg (by simp [hsf]), if_neg hrem]
      have h1' : now + min tick (endTime - now) < t + tick := by
        have := min_le_left tick (endTime - now)
        linarith
      have h2' : t < now + min tick (endTime - now) + (n : ℚ) * tick := by
        rcases le_total tick (endTime - now) with hm | hm
        · rw [min_eq_left hm]
          push_cast at h2
          linarith
        · rw [min_eq_right hm]
          have htickpos : 0 < tick := by linarith
          have : 0 ≤ (n : ℚ) * tick := by positivity
          linarith
      obtain ⟨τ, hτ1, hτ2, hτ3⟩ := ih (now + min tick (endTime - now)) h1' h2'
      exact ⟨τ, hτ1, hτ2, hstep.trans hτ3⟩

/-- With the stop predicate true from `t` on and `t` before the deadline,
the loop can never return normally: the stop check precedes the deadline
check at every poll. -/
theorem sleepLoop_never_done (endTime tick t : ℚ) (sf : ℚ → Bool)
    (hend : t < endTime)
    (hf : ∀ τ, sf τ = decide (t ≤ τ)) :
    ∀ (fuel : Nat) (now τ : ℚ),
      sleepLoop endTime tick (some sf) fuel now ≠ some (.done τ) := by
  intro fuel
  induction fuel with
  | zero => intro now τ; simp [sleepLoop]
  | succ n ih =>
    intro now τ
    by_cases hc : t ≤ now
    · have hsf : checkStop (some sf) now = true := by
        show sf now = true
        rw [hf now]; exact decide_eq_true hc
      simp only [sleepLoop]
      rw [if_pos hsf]
      simp
    · push_neg at hc
      have hsf : checkStop (some sf) now = false := by
        show sf now = false
        rw [hf now]; exact decide_eq_false (not_le.mpr hc)
      have hrem : ¬(endTime - now ≤ 0) := by linarith
      simp only [sleepLoop]
      rw [if_neg (by simp [hsf]), if_neg hrem]
      exact ih _ τ

/-- With no stop callback, the loop returns normally at exactly the deadline:
every chunk is `min(tick, remaining)`, so the final partial tick lands on
`endTime` with no overshoot. -/
theorem sleepLoop_noStop_done (endTime tick : ℚ) :
    ∀ (fuel : Nat) (now : ℚ), now ≤ endTime → endTime ≤ now + (fuel : ℚ) * tick →
      sleepLoop endTime tick none (fuel + 1) now = some (.done endTime) := by
  intro fuel
  induction fuel with
  | zero =>
    intro now h1 h2
    have h3 : now = endTime := by push_cast at h2; linarith
    subst h3
    simp only [sleepLoop]
    rw [if_neg (by simp [checkStop]), if_pos (by linarith)]
  | succ n ih =>
    intro now h1 h2
    by_cases hd : endTime - now ≤ 0
    · have h3 : now = endTime := by linarith
      subst h3
      simp only [sleepLoop]
      rw [if_neg (by simp [checkStop]), if_pos (by linarith)]
    · push_neg at hd
      simp only [sleepLoop]
      rw [if_neg (by simp [checkStop]), if_neg (not_le.mpr hd)]
      apply ih
      · have := min_le_right tick (endTime - now)
        linarith
      · rcases le_total tick (endTime - now) with hm | hm
        · rw [min_eq_left hm]
          push_cast at h2
          linarith
        · rw [min_eq_right hm]
          have htickpos : 0 < tick := lt_of_lt_of_le hd hm
          have : 0 ≤ (n : ℚ) * tick := by positivity
          linarith

/-- C2: for every duration `d > 0`, if `should_stop` becomes true at time
`t < d` after the sleep starts (given as the predicate `t ≤ τ`), then some
fuel makes the call raise `TaskStopped` at a poll time within one tick of
`t`, and no fuel can make it return normally after the full duration; and —
because every sleep chunk is `min(tick, remaining)` — with no stop callback
the call returns normally at exactly its deadline `now + d`. -/
theorem cancellableSleep_cancel_bounds (d t now0 tick : ℚ) (sf : ℚ → Bool)
    (hd : 0 < d) (htick : 0 < tick)
    (ht0 : now0 ≤ t) (htd : t < now0 + d)
    (hf : ∀ τ, sf τ = decide (t ≤ τ)) :
    (∃ (fuel : Nat) (τ : ℚ), t ≤ τ ∧ τ < t + tick ∧
      cancellableSleep d (some sf) tick now0 fuel = some (.cancelled τ)) ∧
    (∀ (fuel : Nat) (τ : ℚ),
      cancellableSleep d (some sf) tick now0 fuel ≠ some (.done τ)) ∧
    (∀ (d2 now2 tick2 : ℚ), 0 < d2 → 0 < tick2 →
      ∃ (fuel : Nat), cancellableSleep d2 none tick2 now2 fuel =
        some (.done (now2 + d2))) := by
  have hnle : ¬(d ≤ 0) := not_le.mpr hd
  have htick' : ¬(tick ≤ 0) := not_le.mpr htick
  have hrw : ∀ (st : Option (ℚ → Bool)) (fuel : Nat),
      cancellableSleep d st tick now0 fuel = sleepLoop (now0 + d) tick st fuel now0 := by
    intro st fuel
    simp only [cancellableSleep]
    rw [if_neg hnle, if_neg htick']
  refine ⟨?_, ?_, ?_⟩
  · obtain ⟨k, hk⟩ := exists_nat_gt ((t - now0) / tick)
    have h2 : t < now0 + (k : ℚ) * tick := by
      have := (div_lt_iff₀ htick).mp hk
      linarith
    obtain ⟨τ, hτ1, hτ2, hτ3⟩ := sleepLoop_cancelled_invariant (now0 + d) tick t sf
      (by linarith) hf k now0 (by linarith) h2
    exact ⟨k + 1, τ, hτ1, hτ2, (hrw (some sf) (k + 1)).trans hτ3⟩
  · intro fuel τ
    rw [hrw (some sf) fuel]
    exact sleepLoop_never_done (now0 + d) tick t sf (by linarith) hf fuel now0 τ
  · intro d2 now2 tick2 hd2 htick2
    obtain ⟨k, hk⟩ := exists_nat_gt (d2 / tick2)
    have h2 : now2 + d2 ≤ now2 + (k : ℚ) * tick2 := by
      have := (div_lt_iff₀ htick2).mp hk
      linarith
    refine ⟨k + 1, ?_⟩
    have hrw2 : cancellableSleep d2 none tick2 now2 (k + 1) =
        sleepLoop (now2 + d2) tick2 none (k + 1) now2 := by
      simp only [cancellableSleep]
      rw [if_neg (not_le.mpr hd2), if_neg (not_le.mpr htick2)]
    rw [hrw2]
    exact sleepLoop_noStop_done (now2 + d2) tick2 k now2 (by linarith) h2

/-- Witness for C2: a 1 s sleep with the default 0.1 s tick and a stop
request arriving at t = 0.5 s is cancelled at a poll time in [0.5, 0.6). -/
theorem cancellableSleep_cancel_bounds_witness :
    ∃ (fuel : Nat) (τ : ℚ), (1/2 : ℚ) ≤ τ ∧ τ < 1/2 + 1/10 ∧
      cancellableSleep 1 (some (fun τ => decide ((1/2 : ℚ) ≤ τ))) (1/10) 0 fuel =
        some (.cancelled τ) := by
  exact (cancellableSleep_cancel_bounds 1 (1/2) 0 (1/10)
    (fun τ => decide ((1/2 : ℚ) ≤ τ))
    (by norm_num) (by norm_num) (by norm_num) (by norm_num) (fun τ => rfl)).1

/-!  ## Claim C8 — non-positive durations return without polling  -/

/-- C8: for every duration `d ≤ 0`, `_cancellable_sleep` returns immediately
and normally (at the very time it was called), and the result is the same
for every stop callback — including one that always requests a stop — so the
stop predicate is never consulted and `TaskStopped` cannot be raised. -/
theorem cancellableSleep_nonpos_returns (seconds tick now : ℚ) (fuel : Nat)
    (h : seconds ≤ 0) :
    (∀ st, cancellableSleep seconds st tick now fuel = some (.done now)) ∧
    (∀ st τ, cancellableSleep seconds st tick now fuel ≠ some (.cancelled τ)) := by
  have hall : ∀ st, cancellableSleep seconds st tick now fuel = some (.done now) := by
    intro st
    simp only [cancellableSleep]
    rw [if_pos h]
  refine ⟨hall, ?_⟩
  intro st τ
  rw [hall st]
  simp

/-- Witness for C8: a duration of −1 s with an always-true stop callback
still returns normally and at once. -/
theorem cancellableSleep_nonpos_returns_witness :
    cancellableSleep (-1) (some (fun _ => true)) (1/10) 5 3 = some (.done 5) := by
  exact (cancellableSleep_nonpos_returns (-1) (1/10) 5 3 (by norm_num)).1
    (some (fun _ => true))

/-!  ## The task engine run loop  -/

/-- One configured step (`{"type": float, "value": str, "retry": int}`). -/
structure Task where
  type : ℚ
  value : String
  retry : Int
deriving DecidableEq

/-- What dispatching one step does, as observed by the run loop: normal
completion, a raised `StepFailed`, a raised `TaskStopped`, or any other
exception.  The dispatch itself drives external capabilities, so it is an
oracle parameter of the run loop, indexed by the global dispatch counter. -/
inductive ExecOutcome
  | ok
  | stepFailed (reason : String)
  | taskStopped
  | err (msg : String)
deriving DecidableEq

/-- Terminal disposition of `run_tasks`. -/
inductive RunStatus
  | stopped
  | failed (idx : Nat) (reason : String)
  | completed
  | errored (msg : String)
  | fuelOut
deriving DecidableEq

/-- Result of one `for idx, task in enumerate(tasks)` pass: whether the run
ended inside the pass (and how), the 0-based indices of the steps dispatched
in order, and the next value of the global dispatch counter. -/
structure PassOut where
  ended : Option RunStatus
  executed : List Nat
  next : Nat
deriving DecidableEq

/-- One pass of the run loop (lines 378-499): before each step the stop flag
is read (oracle `stopReq`, indexed by the global dispatch counter `c`) — if
set, the run returns with status stopped having dispatched nothing further;
then the step is dispatched: `StepFailed` is caught by the inner handler and
ends the run as failed at that step index, `TaskStopped` propagates to the
outer handler and ends the run as stopped, any other exception ends it as
errored; a normal outcome moves on to the next step. -/
def runPass (execStep : Nat → Task → ExecOutcome) (stopReq : Nat → Bool) :
    List Task → Nat → Nat → PassOut
  | [], _, c => ⟨none, [], c⟩
  | t :: rest, idx, c =>
    if stopReq c then ⟨some .stopped, [], c⟩
    else
      match execStep c t with
      | .ok =>
        let r := runPass execStep stopReq rest (idx + 1) (c + 1)
        ⟨r.ended, idx :: r.executed, r.next⟩
      | .stepFailed reason => ⟨some (.failed idx reason), [idx], c + 1⟩
      | .taskStopped => ⟨some .stopped, [idx], c + 1⟩
      | .err m => ⟨some (.errored m), [idx], c + 1⟩

/-- The `while True` of `run_tasks` (lines 377-505): run passes until one
ends the run; after a clean pass, stop if `loop_forever` is false, otherwise
perform the 0.1 s inter-pass cancellable sleep (which raises `TaskStopped`
when the stop flag is set, read here at the post-pass counter value) and
start the next pass.  `fuel` bounds the number of modelled passes. -/
def runTasksLoop (execStep : Nat → Task → ExecOutcome) (stopReq : Nat → Bool)
    (tasks : List Task) (loopForever : Bool) : Nat → Nat → RunStatus × List Nat
  | 0, _ => (.fuelOut, [])
  | fuel + 1, c =>
    let p := runPass execStep stopReq tasks 0 c
    match p.ended with
    | some st => (st, p.executed)
    | none =>
      if loopForever = false then (.completed, p.executed)
      else if stopReq p.next then (.stopped, p.executed)
      else
        let r := runTasksLoop execStep stopReq tasks loopForever fuel (p.next + 1)
        (r.1, p.executed ++ r.2)

/-- `RPAEngine` lifecycle flags (`is_running`, `stop_requested`). -/
structure EngineState where
  is_running : Bool
  stop_requested : Bool
deriving DecidableEq

/-- Observable result of one `run_tasks` invocation: terminal status, the
step indices dispatched, and the `is_running` flag after the `finally`. -/
structure RunResult where
  status : RunStatus
  executed : List Nat
  finalRunning : Bool
deriving DecidableEq

/-- `RPAEngine.run_tasks(tasks, loop_forever, callback_msg)` (lines 339-515)
invoked on an engine currently in state `s`: the method performs no check of
`s` whatsoever — it unconditionally sets `is_running = True` and
`stop_requested = False` (lines 347-348) and starts executing; the `finally`
block clears `is_running` on every exit path. -/
def runTasks (_s : EngineState) (execStep : Nat → Task → ExecOutcome)
    (stopReq : Nat → Bool) (tasks : List Task) (loopForever : Bool)
    (fuel : Nat) : RunResult :=
  let r := runTasksLoop execStep stopReq tasks loopForever fuel 0
  ⟨r.1, r.2, false⟩

/-!  ## Claim C3 — fail-fast on `StepFailed`  -/

/-- Shifting the base of a range of step indices by one position. -/
theorem range_map_shift (k idx : Nat) :
    (List.range (k + 1 + 1)).map (· + idx) =
      idx :: (List.range (k + 1)).map (· + (idx + 1)) := by
  rw [List.range_succ_eq_map (k + 1), List.map_cons, List.map_map]
  refine congrArg₂ _ (by simp) ?_
  apply List.map_congr_left
  intro a _
  simp only [Function.comp_apply]
  omega

/-- Inside one pass with no stop request, steps succeeding up to `k` and step
`k` raising `StepFailed` produce: run ended as failed at the `k`-th step of
the pass, exactly the steps up to and including `k` dispatched. -/
theorem runPass_failFast (execStep : Nat → Task → ExecOutcome)
    (stopReq : Nat → Bool) (reason : String) (d : Task)
    (hstop : ∀ c, stopReq c = false) :
    ∀ (ts : List Task) (k idx c : Nat), k < ts.length →
      (∀ i, i < k → execStep (c + i) (ts.getD i d) = .ok) →
      execStep (c + k) (ts.getD k d) = .stepFailed reason →
      runPass execStep stopReq ts idx c =
        ⟨some (.failed (idx + k) reason), (List.range (k + 1)).map (· + idx), c + k + 1⟩ := by
  intro ts
  induction ts with
  | nil => intro k idx c hk; exact absurd hk (by simp)
  | cons t rest ih =>
    intro k idx c hk hok hfail
    cases k with
    | zero =>
      have hf : execStep c t = .stepFailed reason := by
        simpa using hfail
      simp only [runPass, hstop c, Bool.false_eq_true, if_false, hf]
      simp [List.range_succ]
    | succ k2 =>
      have h0 : execStep c t = .ok := by
        simpa using hok 0 (Nat.succ_pos k2)
      have hrec := ih k2 (idx + 1) (c + 1)
        (by simpa using Nat.lt_of_succ_lt_succ hk)
        (fun i hi => by
          have hh := hok (i + 1) (Nat.succ_lt_succ hi)
          rw [show c + (i + 1) = c + 1 + i from by omega] at hh
          simpa using hh)
        (by
          have hh := hfail
          rw [show c + (k2 + 1) = c + 1 + k2 from by omega] at hh
          simpa using hh)
      have e1 : idx + 1 + k2 = idx + (k2 + 1) := by omega
      have e3 : c + 1 + k2 + 1 = c + (k2 + 1) + 1 := by omega
      simp only [runPass, hstop c, Bool.false_eq_true, if_false, h0]
      rw [hrec]
      dsimp only
      rw [e1, e3, range_map_shift]

/-- C3: in a single-pass run with no stop request, if the steps before `k`
complete normally and step `k` raises `StepFailed`, the run executes exactly
steps `0 … k` (the failing step included, nothing after it) and terminates
with a failure status naming step `k` and its reason. -/
theorem runTasks_failFast (s : EngineState)
    (execStep : Nat → Task → ExecOutcome) (stopReq : Nat → Bool)
    (tasks : List Task) (k : Nat) (reason : String) (fuel : Nat)
    (hk : k < tasks.length)
    (hstop : ∀ c, stopReq c = false)
    (hok : ∀ i, i < k → execStep i (tasks.getD i ⟨0, "", 1⟩) = .ok)
    (hfail : execStep k (tasks.getD k ⟨0, "", 1⟩) = .stepFailed reason) :
    (runTasks s execStep stopReq tasks false (fuel + 1)).status = .failed k reason ∧
    (runTasks s execStep stopReq tasks false (fuel + 1)).executed = List.range (k + 1) := by
  have hpass := runPass_failFast execStep stopReq reason ⟨0, "", 1⟩ hstop tasks k 0 0 hk
    (fun i hi => by simpa using hok i hi) (by simpa using hfail)
  have hmap : (List.range (k + 1)).map (· + 0) = List.range (k + 1) := by
    simp
  rw [hmap] at hpass
  have hloop : runTasksLoop execStep stopReq tasks false (fuel + 1) 0 =
      (.failed (0 + k) reason, List.range (k + 1)) := by
    simp only [runTasksLoop, hpass]
  constructor
  · show (runTasksLoop execStep stopReq tasks false (fuel + 1) 0).1 = .failed k reason
    rw [hloop]
    simp
  · show (runTasksLoop execStep stopReq tasks false (fuel + 1) 0).2 = List.range (k + 1)
    rw [hloop]

/-- Witness for C3: the run `[Wait "1", ClickLeft "missing.png" retry 1]`
with no stop request executes the wait (step 0), then ends failed at step 1
with the "no match" reason, executing nothing after it. -/
theorem runTasks_failFast_witness :
    (runTasks ⟨false, false⟩
        (fun i _ => if i = 0 then .ok else .stepFailed "未找到匹配图片: missing.png")
        (fun _ => false)
        [⟨5, "1", 1⟩, ⟨1, "missing.png", 1⟩] false 1).status =
      .failed 1 "未找到匹配图片: missing.png" ∧
    (runTasks ⟨false, false⟩
        (fun i _ => if i = 0 then .ok else .stepFailed "未找到匹配图片: missing.png")
        (fun _ => false)
        [⟨5, "1", 1⟩, ⟨1, "missing.png", 1⟩] false 1).executed = List.range 2 := by
  exact runTasks_failFast ⟨false, false⟩
    (fun i _ => if i = 0 then .ok else .stepFailed "未找到匹配图片: missing.png")
    (fun _ => false)
    [⟨5, "1", 1⟩, ⟨1, "missing.png", 1⟩] 1 "未找到匹配图片: missing.png" 0
    (by simp) (fun _ => rfl)
    (fun i hi => by
      have he : i = 0 := by omega
      subst he
      rfl)
    rfl

/-!  ## Claim C4 — no rejection of a second start while running  -/

/-- C4 counterexample: invoking `run_tasks` on an engine whose state is
already Running (`is_running = true`, no stop requested) is **not**
rejected — the run dispatches its step (executed list `[0]`, not `[]`) and
completes; `run_tasks` contains no check of the running flag. -/
theorem runTasks_whileRunning_not_rejected :
    (runTasks ⟨true, false⟩ (fun _ _ => .ok) (fun _ => false)
      [⟨5, "1", 1⟩] false 1).executed = [0] ∧
    (runTasks ⟨true, false⟩ (fun _ _ => .ok) (fun _ => false)
      [⟨5, "1", 1⟩] false 1).status = .completed ∧
    (runTasks ⟨true, false⟩ (fun _ _ => .ok) (fun _ => false)
      [⟨5, "1", 1⟩] false 1).executed ≠ [] := by
  have h1 : (runTasks ⟨true, false⟩ (fun _ _ => .ok) (fun _ => false)
      [⟨5, "1", 1⟩] false 1).executed = [0] := rfl
  refine ⟨h1, rfl, ?_⟩
  rw [h1]
  simp

/-- C4 amended: `run_tasks` performs no running-state check at all — its
observable behavior is identical for every prior engine state, Running
included (lines 347-348 unconditionally reset the flags).  Overlap between
runs of one engine instance is prevented only by the GUI layer, which
disables the start button while a worker thread is running, not by the
engine. -/
theorem runTasks_ignores_prior_state (s1 s2 : EngineState)
    (execStep : Nat → Task → ExecOutcome) (stopReq : Nat → Bool)
    (tasks : List Task) (loopForever : Bool) (fuel : Nat) :
    runTasks s1 execStep stopReq tasks loopForever fuel =
      runTasks s2 execStep stopReq tasks loopForever fuel := rfl

end WaterRPA
